import Mathlib

/-!
Shallow embedding of `dtreeviz/models/xgb_decision_tree.py` (class `XGBDTree`),
the adapter exposing one tree of a trained XGBoost booster through the generic
decision-tree introspection interface.

Modelling conventions:
* pandas cells of the child-reference columns ("Yes"/"No") are `CellVal`
  (a string, a number, or NaN); cells of the "Split" column are `SplitVal`
  (a rational or NaN) — real thresholds are modelled as rationals since the
  code only ever tests them for NaN and passes them through;
* Python exceptions (`IndexError` on a missing index, `ValueError` from
  `to_numpy(dtype=int)` on an unparsable string) are modelled by `Option`
  with `none` for the raised exception;
* the booster (an external library object) is modelled by its surface used
  here: the per-node table of `trees_to_dataframe()`, the `feature_names`
  list, the objective name from `save_config()`, and the `N × T` matrix of
  `predict(..., pred_leaf=True)` (one leaf id per sample and tree);
* the unbounded Python recursion of `_get_leaf_prediction_path` is given an
  explicit fuel parameter; exhausting the fuel (`none`) models
  non-termination of the source recursion.
-/

/-- A cell of the "Yes"/"No" child-reference columns of `trees_to_dataframe()`:
a compound string such as "0-5", NaN for a leaf, or (defensively) a number. -/
inductive CellVal where
  | nan
  | str (s : String)
  | num (n : Int)
deriving DecidableEq

/-- A cell of the "Split" column: a threshold or NaN (leaf rows). -/
inductive SplitVal where
  | nan
  | val (q : Rat)
deriving DecidableEq

/-- One row of `booster.trees_to_dataframe()`: the columns the adapter reads. -/
structure TreeRow where
  tree : Nat
  yes : CellVal
  no : CellVal
  split : SplitVal
  feature : String
deriving DecidableEq

/-- Which child-reference column is being decoded. -/
inductive ChildCol where
  | yes
  | no
deriving DecidableEq

def getCell (row : TreeRow) : ChildCol → CellVal
  | .yes => row.yes
  | .no => row.no

/-- The surface of the trained booster used by the adapter:
`trees_to_dataframe()`, `feature_names`, the objective name found in
`save_config()` under learner.objective.name, and the leaf-id matrix
returned by `predict(..., pred_leaf=True)` (one row per training sample,
one column per tree of the ensemble). -/
structure BoosterData where
  trees_dataframe : List TreeRow
  feature_names : List String
  objective_name : String
  leaf_matrix : List (List Int)
deriving DecidableEq

/-- Python `s.split(sep)` for a one-character separator, on character lists. -/
def splitCharList (sep : Char) : List Char → List (List Char)
  | [] => [[]]
  | c :: rest =>
    let r := splitCharList sep rest
    if c = sep then [] :: r
    else
      match r with
      | [] => [[c]]
      | g :: gs => (c :: g) :: gs

/-- Python `s.split(sep)` for a one-character separator. -/
def pySplit (s : String) (sep : Char) : List String :=
  (splitCharList sep s.data).map (fun cs => String.mk cs)

def digitVal (c : Char) : Option Nat :=
  let n := c.toNat
  if 48 ≤ n ∧ n ≤ 57 then some (n - 48) else none

def parseNatAux : List Char → Nat → Option Nat
  | [], acc => some acc
  | c :: cs, acc =>
    match digitVal c with
    | some d => parseNatAux cs (10 * acc + d)
    | none => none

/-- Integer parsing of a character string, as `numpy`'s `dtype=int` conversion
does on a decimal string; `none` models the raised `ValueError`. -/
def parseIntChars : List Char → Option Int
  | [] => none
  | '-' :: rest =>
    if rest.isEmpty then none else (parseNatAux rest 0).map (fun n => -(n : Int))
  | cs => (parseNatAux cs 0).map (fun n => (n : Int))

/-- The inner `split_value` of `_split_column_value`: a string cell "t-n" is
replaced by the piece after the separator (`value.split("-")[1]`), any other
cell passes through unchanged. `none` models the `IndexError` raised when a
string cell has no second piece. -/
def split_value : CellVal → Option CellVal
  | .str s =>
    match (pySplit s '-').get? 1 with
    | some w => some (.str w)
    | none => none
  | v => some v

/-- `children.fillna(NO_CHILDREN)`: NaN cells become the sentinel -1. -/
def _change_no_children_value : CellVal → CellVal
  | .nan => .num (-1)
  | v => v

/-- `.to_numpy(dtype=int)` on one cell: a numeric string is parsed, a number
passes through; `none` models the raised `ValueError`. -/
def cellToInt : CellVal → Option Int
  | .str s => parseIntChars s.data
  | .num n => some n
  | .nan => none

/-- All-or-nothing map over a list; `none` models an exception raised while
processing any element. -/
def optionTraverse {α β : Type} (f : α → Option β) : List α → Option (List β)
  | [] => some []
  | x :: xs =>
    match f x, optionTraverse f xs with
    | some y, some ys => some (y :: ys)
    | _, _ => none

/-- `_split_column_value(column_name)`: apply `split_value` to the chosen
child column of every row of the cached single-tree table. -/
def _split_column_value (df : List TreeRow) (col : ChildCol) : Option (List CellVal) :=
  optionTraverse (fun row => split_value (getCell row col)) df

/-- `_calculate_children(column_name)`: split the compound references, replace
NaN by the -1 sentinel, convert to an integer array. -/
def _calculate_children (df : List TreeRow) (col : ChildCol) : Option (List Int) := do
  let cells ← _split_column_value df col
  optionTraverse (fun c => cellToInt (_change_no_children_value c)) cells

/-- `_get_tree_dataframe()`: the rows of the ensemble table whose Tree column
equals the requested tree index (row order preserved; empty when the index
matches nothing). -/
def _get_tree_dataframe (b : BoosterData) (tree_index : Nat) : List TreeRow :=
  b.trees_dataframe.filter (fun row => row.tree == tree_index)

/-- The adapter state after `__init__`: the booster, the tree index, and the
table and child arrays cached at construction. -/
structure XGBDTree where
  booster : BoosterData
  tree_index : Nat
  tree_to_dataframe : List TreeRow
  children_left : List Int
  children_right : List Int
deriving DecidableEq

/-- `XGBDTree.__init__`: cache the single-tree table and compute both child
arrays from it; `none` models an exception escaping the constructor. -/
def XGBDTree.mk? (b : BoosterData) (tree_index : Nat) : Option XGBDTree := do
  let df := _get_tree_dataframe b tree_index
  let cl ← _calculate_children df ChildCol.yes
  let cr ← _calculate_children df ChildCol.no
  pure { booster := b, tree_index := tree_index, tree_to_dataframe := df,
         children_left := cl, children_right := cr }

/-- `get_children_left()`: recomputed from the cached table on every call. -/
def get_children_left (t : XGBDTree) : Option (List Int) :=
  _calculate_children t.tree_to_dataframe ChildCol.yes

/-- `get_children_right()`: recomputed from the cached table on every call. -/
def get_children_right (t : XGBDTree) : Option (List Int) :=
  _calculate_children t.tree_to_dataframe ChildCol.no

/-- `nnodes()`: number of rows of the cached single-tree table. -/
def nnodes (t : XGBDTree) : Nat :=
  t.tree_to_dataframe.length

/-- `_get_column_value("Split")`: the Split column of the re-filtered table. -/
def _get_column_value_split (t : XGBDTree) : List SplitVal :=
  (_get_tree_dataframe t.booster t.tree_index).map (fun r => r.split)

/-- `_get_column_value("Feature")`: the Feature column of the re-filtered table. -/
def _get_column_value_feature (t : XGBDTree) : List String :=
  (_get_tree_dataframe t.booster t.tree_index).map (fun r => r.feature)

/-- `get_node_split(id)`: the raw threshold, or the NO_SPLIT sentinel -2 when
the raw cell is NaN; `none` models the `IndexError` on an invalid id. -/
def get_node_split (t : XGBDTree) (id : Nat) : Option Rat :=
  ((_get_column_value_split t).get? id).map (fun v =>
    match v with
    | .nan => (-2 : Rat)
    | .val q => q)

/-- First index of `target` in `l` (Python `list.index` /
`np.where(arr == target)[0][0]`); `none` models the lookup failure. -/
def firstIndexOf {α : Type} [DecidableEq α] (target : α) : List α → Option Nat
  | [] => none
  | x :: rest =>
    if x = target then some 0 else (firstIndexOf target rest).map (fun i => i + 1)

/-- `get_node_feature(id)`: the position of the node's feature name in
`booster.feature_names`, or the NO_FEATURE sentinel -2 when the name is
absent (the `ValueError` of `list.index` is caught); `none` models the
`IndexError` on an invalid id. -/
def get_node_feature (t : XGBDTree) (id : Nat) : Option Int :=
  ((_get_column_value_feature t).get? id).map (fun name =>
    match firstIndexOf name t.booster.feature_names with
    | some i => (i : Int)
    | none => -2)

/-- `is_classifier()`: tri-state on the piece of the objective name before the
first colon; `none` models the Python `None` for unrecognized objectives. -/
def is_classifier (t : XGBDTree) : Option Bool :=
  let objective_name := (pySplit t.booster.objective_name ':').headD ""
  if objective_name = "binary" then some true
  else if objective_name = "reg" then some false
  else none

/-- Modelled from the spec: `VisualisationNotYetSupportedError` lives in
`dtreeviz/exceptions.py`, which is not part of the provided sources; per the
spec it signals that an operation is "not yet supported" for this model
family, carrying the method name and the model family. -/
structure VisualisationNotYetSupportedError where
  method_name : String
  model_family : String
deriving DecidableEq

/-- `criterion()`: raises, never returns (codomain `Empty`). -/
def criterion (_t : XGBDTree) : Except VisualisationNotYetSupportedError Empty :=
  .error ⟨"criterion()", "XGBoost"⟩

/-- `get_feature_path_importance(node_list)`: raises, never returns. -/
def get_feature_path_importance (_t : XGBDTree) (_node_list : List Nat) :
    Except VisualisationNotYetSupportedError Empty :=
  .error ⟨"get_feature_path_importance()", "XGBoost"⟩

/-- `get_node_criterion()`: raises, never returns. -/
def get_node_criterion (_t : XGBDTree) : Except VisualisationNotYetSupportedError Empty :=
  .error ⟨"get_node_criterion()", "XGBoost"⟩

/-- `get_max_depth()`: raises, never returns. -/
def get_max_depth (_t : XGBDTree) : Except VisualisationNotYetSupportedError Empty :=
  .error ⟨"get_max_depth()", "XGBoost"⟩

/-- `get_score()`: raises, never returns. -/
def get_score (_t : XGBDTree) : Except VisualisationNotYetSupportedError Empty :=
  .error ⟨"get_score()", "XGBoost"⟩

/-- `get_min_samples_leaf()`: raises, never returns. -/
def get_min_samples_leaf (_t : XGBDTree) : Except VisualisationNotYetSupportedError Empty :=
  .error ⟨"get_min_samples_leaf()", "XGBoost"⟩

/-- The inner `walk` of `_get_leaf_prediction_path`, returning the node ids it
appends after the starting node, in append order: at a non-root node the left
child array is searched for the node (`np.where(children_left == node_id)`,
first hit, the `IndexError` of a miss being caught and ignored), the parent
found is appended and walked from, and then the right child array likewise.
`fuel` bounds the recursion depth; `none` models non-termination. -/
def walkSeg (cl cr : List Int) : Nat → Int → Option (List Int)
  | 0, _ => none
  | fuel + 1, node =>
    if node = 0 then some []
    else
      match firstIndexOf node cl, firstIndexOf node cr with
      | some p, some q =>
        match walkSeg cl cr fuel (p : Int), walkSeg cl cr fuel (q : Int) with
        | some segL, some segR => some (((p : Int) :: segL) ++ ((q : Int) :: segR))
        | _, _ => none
      | some p, none => (walkSeg cl cr fuel (p : Int)).map (fun seg => (p : Int) :: seg)
      | none, some q => (walkSeg cl cr fuel (q : Int)).map (fun seg => (q : Int) :: seg)
      | none, none => some []

/-- `_get_leaf_prediction_path(leaf)`: the list starting at the leaf followed
by everything the upward walk appends. -/
def _get_leaf_prediction_path (cl cr : List Int) (fuel : Nat) (leaf : Int) :
    Option (List Int) :=
  (walkSeg cl cr fuel leaf).map (fun seg => leaf :: seg)

/-- `predict(..., pred_leaf=True)[:, tree_index]`: the tree's column of the
leaf-id matrix; `none` models the `IndexError` when the matrix has no such
column. -/
def predictionLeaves (t : XGBDTree) : Option (List Int) :=
  optionTraverse (fun row => row.get? t.tree_index) t.booster.leaf_matrix

/-- `defaultdict(list)` with `d[key].append(v)`: append `v` to the entry of
`key`, creating the entry at the end on first use. -/
def dictAppend (key : Int) (v : Nat) : List (Int × List Nat) → List (Int × List Nat)
  | [] => [(key, [v])]
  | (k, vs) :: rest =>
    if k = key then (k, vs ++ [v]) :: rest else (k, vs) :: dictAppend key v rest

/-- One iteration of the sample loop of `get_node_samples`: append the sample
index to every node of its prediction path. -/
def insertPath (d : List (Int × List Nat)) (i : Nat) (path : List Int) :
    List (Int × List Nat) :=
  path.foldl (fun d node => dictAppend node i d) d

/-- Reading the mapping: the sample list of a node id ([] when absent, as a
fresh `defaultdict(list)` entry would be). -/
def dictGet (key : Int) : List (Int × List Nat) → List Nat
  | [] => []
  | (k, vs) :: rest => if k = key then vs else dictGet key rest

/-- `get_node_samples()`: one leaf id per sample from the booster's leaf
matrix, one upward path per sample, every visited node id collecting the
sample index. -/
def get_node_samples (t : XGBDTree) (fuel : Nat) : Option (List (Int × List Nat)) := do
  let prediction_leaves ← predictionLeaves t
  let paths ← optionTraverse
    (fun leaf => _get_leaf_prediction_path t.children_left t.children_right fuel leaf)
    prediction_leaves
  pure (paths.enum.foldl (fun d ip => insertPath d ip.1 ip.2) [])

/-- Well-formedness of the child-link arrays as a tree rooted at node 0:
equal lengths, the root is nobody's child, every non-root valid id is the
child of exactly one slot across the two arrays, and the parent relation
(slot index to child value) is acyclic, witnessed by a rank function. -/
structure WellFormed (cl cr : List Int) : Prop where
  len_eq : cr.length = cl.length
  root_not_child : (0 : Int) ∉ cl ∧ (0 : Int) ∉ cr
  unique_parent : ∀ k : Int, 0 < k → k < (cl.length : Int) →
    cl.count k + cr.count k = 1
  acyclic : ∃ rank : Int → Nat, ∀ p : Nat, ∀ k : Int, p < cl.length → 0 < k →
    (cl.getD p 0 = k ∨ cr.getD p 0 = k) → rank p < rank k

/-! Concrete instances used to exercise the definitions. -/

/-- Root row of a three-node tree of tree 0: children are nodes 1 and 2. -/
def exRow0 : TreeRow :=
  { tree := 0, yes := .str "0-1", no := .str "0-2", split := .val 3, feature := "f0" }

/-- A leaf row of tree 0: no children, no split, feature name "Leaf". -/
def exRowLeaf : TreeRow :=
  { tree := 0, yes := .nan, no := .nan, split := .nan, feature := "Leaf" }

/-- A booster with a single three-node tree and two training samples landing
in leaves 1 and 2. -/
def exBooster : BoosterData :=
  { trees_dataframe := [exRow0, exRowLeaf, exRowLeaf],
    feature_names := ["f0"],
    objective_name := "binary:logistic",
    leaf_matrix := [[1], [2]] }

/-- The adapter `__init__` builds from `exBooster` at tree index 0. -/
def exTree : XGBDTree :=
  { booster := exBooster, tree_index := 0,
    tree_to_dataframe := [exRow0, exRowLeaf, exRowLeaf],
    children_left := [1, -1, -1], children_right := [2, -1, -1] }

/-- A single-tree booster (one leaf-only tree, one sample, one matrix column). -/
def exBoosterOneTree : BoosterData :=
  { trees_dataframe := [exRowLeaf],
    feature_names := ["f0"],
    objective_name := "binary:logistic",
    leaf_matrix := [[0]] }

/-- The adapter built from `exBoosterOneTree` at the absent tree index 1:
the filtered table and both child arrays are empty. -/
def exTreeAbsentIndex : XGBDTree :=
  { booster := exBoosterOneTree, tree_index := 1,
    tree_to_dataframe := [], children_left := [], children_right := [] }

/-- Root row whose raw split threshold is the number -2 (not NaN). -/
def exRowSplitMinusTwo : TreeRow :=
  { tree := 0, yes := .str "0-1", no := .str "0-2", split := .val (-2), feature := "f0" }

/-- The adapter over a tree whose root has raw threshold -2. -/
def exTreeSplitMinusTwo : XGBDTree :=
  { booster :=
      { trees_dataframe := [exRowSplitMinusTwo, exRowLeaf, exRowLeaf],
        feature_names := ["f0"],
        objective_name := "binary:logistic",
        leaf_matrix := [[1], [2]] },
    tree_index := 0,
    tree_to_dataframe := [exRowSplitMinusTwo, exRowLeaf, exRowLeaf],
    children_left := [1, -1, -1], children_right := [2, -1, -1] }

/-- An adapter whose objective name begins with "reg" but whose first
colon-separated piece is "regression", not "reg". -/
def exTreeRegression : XGBDTree :=
  { booster :=
      { trees_dataframe := [], feature_names := [],
        objective_name := "regression:linear", leaf_matrix := [] },
    tree_index := 0, tree_to_dataframe := [],
    children_left := [], children_right := [] }

/-- An adapter with objective name "reg:squarederror". -/
def exTreeRegObjective : XGBDTree :=
  { booster :=
      { trees_dataframe := [], feature_names := [],
        objective_name := "reg:squarederror", leaf_matrix := [] },
    tree_index := 0, tree_to_dataframe := [],
    children_left := [], children_right := [] }

/-- An adapter with the multiclass objective name "multi:softmax". -/
def exTreeMultiObjective : XGBDTree :=
  { booster :=
      { trees_dataframe := [], feature_names := [],
        objective_name := "multi:softmax", leaf_matrix := [] },
    tree_index := 0, tree_to_dataframe := [],
    children_left := [], children_right := [] }

/-- The sample indices routed to `node`, reading the samples off in order
starting at index `n`: sample `n + j` appears once per occurrence of `node`
in the `j`-th path. Specification-side description of the mapping that
`get_node_samples` builds. -/
def routedAux (node : Int) : Nat → List (List Int) → List Nat
  | _, [] => []
  | n, p :: ps => List.replicate (p.count node) n ++ routedAux node (n + 1) ps

/-- Per-cell description of the `_calculate_children` pipeline: NaN becomes
the -1 sentinel, a number passes through unchanged, and a string is split on
the separator with its second piece parsed as the child id. -/
def childDecode (cell : CellVal) (v : Int) : Prop :=
  match cell with
  | .nan => v = -1
  | .num n => v = n
  | .str s => ∃ w, (pySplit s '-').get? 1 = some w ∧ parseIntChars w.data = some v



/-! Supporting lemmas. -/

theorem optionTraverse_length {α β : Type} (f : α → Option β) :
    ∀ (l : List α) (out : List β), optionTraverse f l = some out → out.length = l.length := by
  intro l
  induction l with
  | nil =>
    intro out h
    simp only [optionTraverse, Option.some.injEq] at h
    simp [← h]
  | cons x xs ih =>
    intro out h
    unfold optionTraverse at h
    split at h
    · rename_i y ys hfx hxs
      injection h with h
      subst h
      simp [ih _ hxs]
    · exact absurd h (by simp)

theorem optionTraverse_get? {α β : Type} (f : α → Option β) :
    ∀ (l : List α) (out : List β), optionTraverse f l = some out →
      ∀ (i : Nat) (x : α), l.get? i = some x →
        ∃ y, f x = some y ∧ out.get? i = some y := by
  intro l
  induction l with
  | nil => intro out _ i x hx; simp at hx
  | cons a as ih =>
    intro out h i x hx
    unfold optionTraverse at h
    split at h
    · rename_i y ys hfa has
      injection h with h
      subst h
      cases i with
      | zero =>
        simp only [List.get?] at hx
        injection hx with hx
        subst hx
        exact ⟨y, hfa, rfl⟩
      | succ j =>
        simp only [List.get?] at hx
        exact ih ys has j x hx
    · exact absurd h (by simp)

theorem optionTraverse_total {α β : Type} (f : α → Option β) :
    ∀ (l : List α), (∀ x ∈ l, ∃ y, f x = some y) →
      ∃ out, optionTraverse f l = some out := by
  intro l
  induction l with
  | nil => exact fun _ => ⟨[], rfl⟩
  | cons a as ih =>
    intro h
    obtain ⟨y, hy⟩ := h a (by simp)
    obtain ⟨ys, hys⟩ := ih (fun x hx => h x (by simp [hx]))
    exact ⟨y :: ys, by unfold optionTraverse; rw [hy, hys]⟩

theorem optionTraverse_mem {α β : Type} (f : α → Option β) :
    ∀ (l : List α) (out : List β), optionTraverse f l = some out →
      ∀ y ∈ out, ∃ x ∈ l, f x = some y := by
  intro l
  induction l with
  | nil =>
    intro out h y hy
    simp only [optionTraverse, Option.some.injEq] at h
    subst h
    simp at hy
  | cons a as ih =>
    intro out h y hy
    unfold optionTraverse at h
    split at h
    · rename_i z zs hfa has
      injection h with h
      subst h
      rcases List.mem_cons.mp hy with rfl | hmem
      · exact ⟨a, by simp, hfa⟩
      · obtain ⟨x, hx, hfx⟩ := ih zs has y hmem
        exact ⟨x, by simp [hx], hfx⟩
    · exact absurd h (by simp)

theorem firstIndexOf_eq_none {α : Type} [DecidableEq α] (a : α) :
    ∀ (l : List α), a ∉ l → firstIndexOf a l = none := by
  intro l
  induction l with
  | nil => intro _; rfl
  | cons x xs ih =>
    intro h
    have hx : ¬x = a := fun hh => h (by simp [hh])
    have hxs : a ∉ xs := fun hh => h (by simp [hh])
    unfold firstIndexOf
    rw [if_neg hx, ih hxs]
    rfl

theorem firstIndexOf_some_getD {α : Type} [DecidableEq α] (a d : α) :
    ∀ (l : List α) (p : Nat), firstIndexOf a l = some p →
      p < l.length ∧ l.getD p d = a := by
  intro l
  induction l with
  | nil => intro p h; simp [firstIndexOf] at h
  | cons x xs ih =>
    intro p h
    unfold firstIndexOf at h
    by_cases hx : x = a
    · rw [if_pos hx] at h
      injection h with h
      subst h
      exact ⟨by simp, by simp [hx]⟩
    · rw [if_neg hx] at h
      cases hq : firstIndexOf a xs with
      | none => rw [hq] at h; simp at h
      | some q =>
        rw [hq] at h
        simp only [Option.map_some', Option.some.injEq] at h
        subst h
        obtain ⟨h1, h2⟩ := ih q hq
        exact ⟨by simpa using Nat.succ_lt_succ h1, by simpa using h2⟩

theorem firstIndexOf_mem {α : Type} [DecidableEq α] (a : α) :
    ∀ (l : List α), a ∈ l → ∃ p, firstIndexOf a l = some p := by
  intro l
  induction l with
  | nil => intro h; simp at h
  | cons x xs ih =>
    intro h
    by_cases hx : x = a
    · exact ⟨0, by unfold firstIndexOf; rw [if_pos hx]⟩
    · have hmem : a ∈ xs := by
        rcases List.mem_cons.mp h with rfl | hm
        · exact absurd rfl hx
        · exact hm
      obtain ⟨p, hp⟩ := ih hmem
      exact ⟨p + 1, by unfold firstIndexOf; rw [if_neg hx, hp]; rfl⟩

theorem firstIndexOf_some_of_count_one {α : Type} [DecidableEq α] [BEq α] [LawfulBEq α]
    (a : α) (l : List α) (h : l.count a = 1) : ∃ p, firstIndexOf a l = some p := by
  apply firstIndexOf_mem
  have : 0 < l.count a := by omega
  exact List.count_pos_iff.mp this

theorem dictGet_dictAppend_same (k : Int) (v : Nat) :
    ∀ d, dictGet k (dictAppend k v d) = dictGet k d ++ [v] := by
  intro d
  induction d with
  | nil => simp [dictAppend, dictGet]
  | cons e rest ih =>
    obtain ⟨ek, evs⟩ := e
    by_cases h : ek = k
    · subst h
      simp [dictAppend, dictGet]
    · simp [dictAppend, dictGet, h, ih]

theorem dictGet_dictAppend_ne (k k' : Int) (v : Nat) (hne : k' ≠ k) :
    ∀ d, dictGet k' (dictAppend k v d) = dictGet k' d := by
  intro d
  induction d with
  | nil =>
    have hke : ¬k = k' := fun h => hne h.symm
    simp [dictAppend, dictGet, hke]
  | cons e rest ih =>
    obtain ⟨ek, evs⟩ := e
    by_cases h : ek = k
    · subst h
      have hke : ¬ek = k' := fun hh => hne hh.symm
      simp [dictAppend, dictGet, hke]
    · simp [dictAppend, dictGet, h, ih]

theorem dictAppend_ne_nil (k : Int) (v : Nat) : ∀ d, dictAppend k v d ≠ [] := by
  intro d
  cases d with
  | nil => simp [dictAppend]
  | cons e rest =>
    obtain ⟨ek, evs⟩ := e
    by_cases h : ek = k <;> simp [dictAppend, h]

theorem insertPath_cons (d : List (Int × List Nat)) (i : Nat) (node : Int)
    (rest : List Int) :
    insertPath d i (node :: rest) = insertPath (dictAppend node i d) i rest := rfl

theorem dictGet_insertPath (i : Nat) (k : Int) :
    ∀ (path : List Int) (d : List (Int × List Nat)),
      dictGet k (insertPath d i path) = dictGet k d ++ List.replicate (path.count k) i := by
  intro path
  induction path with
  | nil => intro d; simp [insertPath]
  | cons node rest ih =>
    intro d
    rw [insertPath_cons, ih]
    by_cases h : node = k
    · subst h
      rw [dictGet_dictAppend_same]
      rw [List.count_cons_self]
      simp [List.replicate_succ, List.append_assoc]
    · rw [dictGet_dictAppend_ne _ _ _ (fun hh => h hh.symm)]
      rw [List.count_cons_of_ne (fun hh => h (by exact_mod_cast hh.symm))]

theorem insertPath_ne_nil_of_ne_nil (i : Nat) :
    ∀ (path : List Int) (d : List (Int × List Nat)), d ≠ [] →
      insertPath d i path ≠ [] := by
  intro path
  induction path with
  | nil => intro d h; exact h
  | cons node rest ih =>
    intro d _
    rw [insertPath_cons]
    exact ih _ (dictAppend_ne_nil _ _ _)

theorem insertPath_ne_nil_of_path_ne_nil (i : Nat) (node : Int) (rest : List Int)
    (d : List (Int × List Nat)) : insertPath d i (node :: rest) ≠ [] := by
  rw [insertPath_cons]
  exact insertPath_ne_nil_of_ne_nil _ _ _ (dictAppend_ne_nil _ _ _)

theorem foldl_insertPath_ne_nil :
    ∀ (ps : List (Nat × List Int)) (d : List (Int × List Nat)), d ≠ [] →
      ps.foldl (fun d ip => insertPath d ip.1 ip.2) d ≠ [] := by
  intro ps
  induction ps with
  | nil => exact fun d h => h
  | cons p rest ih =>
    intro d h
    exact ih _ (insertPath_ne_nil_of_ne_nil _ _ _ h)

theorem dictGet_foldl_insertPath (k : Int) :
    ∀ (paths : List (List Int)) (n : Nat) (d : List (Int × List Nat)),
      dictGet k ((List.enumFrom n paths).foldl (fun d ip => insertPath d ip.1 ip.2) d)
        = dictGet k d ++ routedAux k n paths := by
  intro paths
  induction paths with
  | nil => intro n d; simp [routedAux]
  | cons p ps ih =>
    intro n d
    show dictGet k ((List.enumFrom (n + 1) ps).foldl _ (insertPath d n p)) = _
    rw [ih, dictGet_insertPath]
    simp [routedAux, List.append_assoc]

theorem routedAux_all_once (node : Int) :
    ∀ (paths : List (List Int)), (∀ p ∈ paths, p.count node = 1) →
      ∀ n, routedAux node n paths = List.range' n paths.length := by
  intro paths
  induction paths with
  | nil => intro _ n; simp [routedAux]
  | cons p ps ih =>
    intro h n
    have hp : p.count node = 1 := h p (by simp)
    show List.replicate (p.count node) n ++ routedAux node (n + 1) ps = _
    rw [hp, ih (fun q hq => h q (by simp [hq])) (n + 1)]
    simp [List.range'_succ]

theorem mem_routedAux (node : Int) :
    ∀ (paths : List (List Int)) (i : Nat) (p : List Int), paths.get? i = some p →
      0 < p.count node → ∀ n, (n + i) ∈ routedAux node n paths := by
  intro paths
  induction paths with
  | nil => intro i p h; simp at h
  | cons q ps ih =>
    intro i p h hc n
    cases i with
    | zero =>
      simp only [List.get?] at h
      injection h with h
      subst h
      show n + 0 ∈ List.replicate (q.count node) n ++ routedAux node (n + 1) ps
      refine List.mem_append.mpr (Or.inl ?_)
      rw [List.mem_replicate]
      exact ⟨by omega, by omega⟩
    | succ j =>
      simp only [List.get?] at h
      have hmem := ih j p h hc (n + 1)
      show n + (j + 1) ∈ List.replicate (q.count node) n ++ routedAux node (n + 1) ps
      refine List.mem_append.mpr (Or.inr ?_)
      have : n + (j + 1) = (n + 1) + j := by omega
      rw [this]
      exact hmem

theorem splitCharList_cons (sep c : Char) (rest : List Char) :
    splitCharList sep (c :: rest) =
      if c = sep then [] :: splitCharList sep rest
      else
        match splitCharList sep rest with
        | [] => [[c]]
        | g :: gs => (c :: g) :: gs := rfl

theorem splitCharList_no_sep (sep : Char) :
    ∀ (cs : List Char), sep ∉ cs → splitCharList sep cs = [cs] := by
  intro cs
  induction cs with
  | nil => intro _; rfl
  | cons c rest ih =>
    intro h
    have hc : ¬c = sep := fun hh => h (by simp [hh])
    have hrest : sep ∉ rest := fun hh => h (by simp [hh])
    rw [splitCharList_cons, if_neg hc, ih hrest]

theorem splitCharList_append_sep (sep : Char) :
    ∀ (xs ys : List Char), sep ∉ xs →
      splitCharList sep (xs ++ sep :: ys) = xs :: splitCharList sep ys := by
  intro xs
  induction xs with
  | nil =>
    intro ys _
    show splitCharList sep (sep :: ys) = [] :: splitCharList sep ys
    rw [splitCharList_cons, if_pos rfl]
  | cons x xs ih =>
    intro ys h
    have hx : ¬x = sep := fun hh => h (by simp [hh])
    have hxs : sep ∉ xs := fun hh => h (by simp [hh])
    show splitCharList sep (x :: (xs ++ sep :: ys)) = (x :: xs) :: splitCharList sep ys
    rw [splitCharList_cons, if_neg hx, ih ys hxs]

theorem splitCharList_ne_nil (sep : Char) :
    ∀ (cs : List Char), splitCharList sep cs ≠ [] := by
  intro cs
  cases cs with
  | nil => simp [splitCharList]
  | cons c rest =>
    unfold splitCharList
    by_cases h : c = sep
    · rw [if_pos h]; simp
    · rw [if_neg h]
      cases hr : splitCharList sep rest <;> simp

theorem mk?_spec (b : BoosterData) (ti : Nat) (t : XGBDTree)
    (hmk : XGBDTree.mk? b ti = some t) :
    t.booster = b ∧ t.tree_index = ti ∧
    t.tree_to_dataframe = _get_tree_dataframe b ti ∧
    _calculate_children (_get_tree_dataframe b ti) ChildCol.yes = some t.children_left ∧
    _calculate_children (_get_tree_dataframe b ti) ChildCol.no = some t.children_right := by
  simp only [XGBDTree.mk?] at hmk
  cases hcl : _calculate_children (_get_tree_dataframe b ti) ChildCol.yes with
  | none => simp [hcl] at hmk
  | some cl =>
    cases hcr : _calculate_children (_get_tree_dataframe b ti) ChildCol.no with
    | none => simp [hcl, hcr] at hmk
    | some cr =>
      simp only [hcl, hcr] at hmk
      simp only [bind, Option.bind, Option.pure_def, Option.some.injEq] at hmk
      subst hmk
      exact ⟨rfl, rfl, rfl, rfl, rfl⟩

theorem _calculate_children_length (df : List TreeRow) (col : ChildCol)
    (out : List Int) (h : _calculate_children df col = some out) :
    out.length = df.length := by
  unfold _calculate_children at h
  cases hc : _split_column_value df col with
  | none => rw [hc] at h; simp at h
  | some cells =>
    rw [hc] at h
    simp only [bind, Option.bind] at h
    have h1 := optionTraverse_length _ _ _ h
    have h2 := optionTraverse_length _ _ _ hc
    omega

theorem walkSeg_succ (cl cr : List Int) (fuel : Nat) (node : Int) :
    walkSeg cl cr (fuel + 1) node =
      if node = 0 then some []
      else
        match firstIndexOf node cl, firstIndexOf node cr with
        | some p, some q =>
          match walkSeg cl cr fuel (p : Int), walkSeg cl cr fuel (q : Int) with
          | some segL, some segR => some (((p : Int) :: segL) ++ ((q : Int) :: segR))
          | _, _ => none
        | some p, none => (walkSeg cl cr fuel (p : Int)).map (fun seg => (p : Int) :: seg)
        | none, some q => (walkSeg cl cr fuel (q : Int)).map (fun seg => (q : Int) :: seg)
        | none, none => some [] := rfl

theorem walkSeg_total (cl cr : List Int)
    (len_eq : cr.length = cl.length)
    (huniq : ∀ k : Int, 0 < k → k < (cl.length : Int) → cl.count k + cr.count k = 1)
    (rank : Int → Nat)
    (hrank : ∀ p : Nat, ∀ k : Int, p < cl.length → 0 < k →
      (cl.getD p 0 = k ∨ cr.getD p 0 = k) → rank p < rank k) :
    ∀ (fuel : Nat) (node : Int), 0 ≤ node → node < (cl.length : Int) →
      rank node < fuel →
      ∃ seg, walkSeg cl cr fuel node = some seg ∧
        seg.count 0 = if node = 0 then 0 else 1 := by
  intro fuel
  induction fuel with
  | zero => intro node _ _ h; omega
  | succ f ih =>
    intro node h0 hlt hfuel
    by_cases hr : node = 0
    · subst hr
      exact ⟨[], by rw [walkSeg_succ, if_pos rfl], by simp⟩
    · have hpos : 0 < node := lt_of_le_of_ne h0 (Ne.symm hr)
      have hcount := huniq node hpos hlt
      have hcases : (cl.count node = 1 ∧ cr.count node = 0) ∨
          (cl.count node = 0 ∧ cr.count node = 1) := by omega
      rcases hcases with ⟨h1, h2⟩ | ⟨h1, h2⟩
      · obtain ⟨p, hp⟩ := firstIndexOf_mem node cl (List.count_pos_iff.mp (by omega))
        have hnone : firstIndexOf node cr = none :=
          firstIndexOf_eq_none node cr (List.count_eq_zero.mp h2)
        obtain ⟨hplen, hpget⟩ := firstIndexOf_some_getD node 0 cl p hp
        have hrankp : rank p < rank node := hrank p node hplen hpos (Or.inl hpget)
        have hple : ((p : Nat) : Int) < (cl.length : Int) := by exact_mod_cast hplen
        have hfp : rank (p : Int) < f := by omega
        obtain ⟨seg, hseg, hcnt⟩ := ih (p : Int) (Int.natCast_nonneg p) hple hfp
        refine ⟨(p : Int) :: seg, ?_, ?_⟩
        · rw [walkSeg_succ, if_neg hr]
          simp only [hp, hnone, hseg, Option.map_some']
        · rw [if_neg hr]
          by_cases hp0 : ((p : Nat) : Int) = 0
          · rw [hp0, List.count_cons_self]
            rw [if_pos hp0] at hcnt
            omega
          · rw [List.count_cons_of_ne (fun h => hp0 h.symm)]
            rw [if_neg hp0] at hcnt
            exact hcnt
      · obtain ⟨q, hq⟩ := firstIndexOf_mem node cr (List.count_pos_iff.mp (by omega))
        have hnone : firstIndexOf node cl = none :=
          firstIndexOf_eq_none node cl (List.count_eq_zero.mp h1)
        obtain ⟨hqlen, hqget⟩ := firstIndexOf_some_getD node 0 cr q hq
        have hqlen' : q < cl.length := by omega
        have hrankq : rank q < rank node := hrank q node hqlen' hpos (Or.inr hqget)
        have hqle : ((q : Nat) : Int) < (cl.length : Int) := by exact_mod_cast hqlen'
        have hfq : rank (q : Int) < f := by omega
        obtain ⟨seg, hseg, hcnt⟩ := ih (q : Int) (Int.natCast_nonneg q) hqle hfq
        refine ⟨(q : Int) :: seg, ?_, ?_⟩
        · rw [walkSeg_succ, if_neg hr]
          simp only [hnone, hq, hseg, Option.map_some']
        · rw [if_neg hr]
          by_cases hq0 : ((q : Nat) : Int) = 0
          · rw [hq0, List.count_cons_self]
            rw [if_pos hq0] at hcnt
            omega
          · rw [List.count_cons_of_ne (fun h => hq0 h.symm)]
            rw [if_neg hq0] at hcnt
            exact hcnt

theorem le_foldr_max : ∀ (xs : List Nat) (x : Nat), x ∈ xs → x ≤ xs.foldr max 0 := by
  intro xs
  induction xs with
  | nil => intro x h; simp at h
  | cons a as ih =>
    intro x hx
    rcases List.mem_cons.mp hx with rfl | h
    · exact le_max_left _ _
    · exact le_trans (ih x h) (le_max_right _ _)

/-! Claim theorems. -/

/-- C2 (counterexample): the claim "get_node_split(id) returns -2 if and only
if the raw Split value is NaN" fails at a node whose raw threshold is the
number -2: the returned value is -2 while the raw cell is not NaN. -/
theorem C2_counterexample :
    get_node_split exTreeSplitMinusTwo 0 = some (-2) ∧
    (_get_column_value_split exTreeSplitMinusTwo).get? 0 = some (SplitVal.val (-2)) ∧
    SplitVal.val (-2) ≠ SplitVal.nan :=
  ⟨rfl, rfl, fun h => SplitVal.noConfusion h⟩

/-- C2 (amended): for every valid node id, `get_node_split` returns the raw
threshold unchanged when it is a number and the sentinel -2 when it is NaN;
consequently it returns -2 exactly when the raw cell is NaN or the raw
threshold itself equals -2. -/
theorem C2_get_node_split_sentinel (t : XGBDTree) (id : Nat) (v : SplitVal)
    (hv : (_get_column_value_split t).get? id = some v) :
    (get_node_split t id = some (-2) ↔ (v = SplitVal.nan ∨ v = SplitVal.val (-2))) ∧
    (∀ q : Rat, v = SplitVal.val q → get_node_split t id = some q) := by
  unfold get_node_split
  rw [hv]
  cases v with
  | nan =>
    refine ⟨by simp, ?_⟩
    intro q hq
    exact absurd hq (by simp)
  | val q =>
    refine ⟨by simp, ?_⟩
    intro q' hq'
    injection hq' with h
    rw [h]
    simp

/-- C2 (witness): at a NaN split cell the sentinel -2 is returned. -/
theorem C2_witness : get_node_split exTree 1 = some (-2) :=
  (C2_get_node_split_sentinel exTree 1 SplitVal.nan rfl).1.mpr (Or.inl rfl)

/-- C3: for every valid node id, `get_node_feature` returns some integer
(never propagating the lookup failure), that integer is the sentinel -2
exactly when the node's feature name is absent from the booster's feature
list, and otherwise it is the first position of the name in that list. -/
theorem C3_get_node_feature_sentinel (t : XGBDTree) (id : Nat) (name : String)
    (hv : (_get_column_value_feature t).get? id = some name) :
    ∃ r : Int, get_node_feature t id = some r ∧
      (r = -2 ↔ name ∉ t.booster.feature_names) ∧
      (∀ p : Nat, firstIndexOf name t.booster.feature_names = some p → r = p) := by
  unfold get_node_feature
  rw [hv]
  cases hfi : firstIndexOf name t.booster.feature_names with
  | none =>
    refine ⟨-2, by simp [hfi], ⟨?_, ?_⟩, ?_⟩
    · intro _ hmem
      obtain ⟨p, hp⟩ := firstIndexOf_mem name _ hmem
      rw [hfi] at hp
      exact Option.noConfusion hp
    · intro _; rfl
    · intro p hp
      exact Option.noConfusion hp
  | some i =>
    refine ⟨(i : Int), by simp [hfi], ⟨?_, ?_⟩, ?_⟩
    · intro h; omega
    · intro habs
      exfalso
      rw [firstIndexOf_eq_none name _ habs] at hfi
      exact Option.noConfusion hfi
    · intro p hp
      injection hp with hp
      exact_mod_cast congrArg (fun n : Nat => (n : Int)) hp

/-- C3 (witness): at node 1 of the example tree the feature name is "Leaf",
absent from the feature list, and the sentinel -2 comes back; at node 0 the
name "f0" is found at position 0. -/
theorem C3_witness :
    (∃ r : Int, get_node_feature exTree 1 = some r ∧
      (r = -2 ↔ "Leaf" ∉ exTree.booster.feature_names) ∧
      (∀ p : Nat, firstIndexOf "Leaf" exTree.booster.feature_names = some p → r = p)) ∧
    (∃ r : Int, get_node_feature exTree 0 = some r ∧
      (r = -2 ↔ "f0" ∉ exTree.booster.feature_names) ∧
      (∀ p : Nat, firstIndexOf "f0" exTree.booster.feature_names = some p → r = p)) :=
  ⟨C3_get_node_feature_sentinel exTree 1 "Leaf" rfl,
   C3_get_node_feature_sentinel exTree 0 "f0" rfl⟩

/-- C5 (counterexample): the claim "an objective name beginning with \"reg\"
yields false" fails on the objective name "regression:linear": it begins
with "reg" yet `is_classifier` returns the indeterminate result. -/
theorem C5_counterexample :
    (∃ rest : List Char,
      ("regression:linear" : String).data = ("reg" : String).data ++ rest) ∧
    is_classifier exTreeRegression = none ∧
    is_classifier exTreeRegression ≠ some false :=
  ⟨⟨("ression:linear" : String).data, rfl⟩, rfl, fun h => Option.noConfusion h⟩

/-- C5 (amended): `is_classifier` is a tri-state function of the piece of the
objective name before the first colon: true when that piece equals "binary",
false when it equals "reg", indeterminate (None) otherwise — never failing. -/
theorem C5_is_classifier_tristate (t : XGBDTree) :
    ((pySplit t.booster.objective_name ':').headD "" = "binary" →
      is_classifier t = some true) ∧
    ((pySplit t.booster.objective_name ':').headD "" = "reg" →
      is_classifier t = some false) ∧
    ((pySplit t.booster.objective_name ':').headD "" ≠ "binary" →
      (pySplit t.booster.objective_name ':').headD "" ≠ "reg" →
      is_classifier t = none) := by
  unfold is_classifier
  refine ⟨fun h => by rw [if_pos h], fun h => ?_, fun h1 h2 => by rw [if_neg h1, if_neg h2]⟩
  rw [if_neg (by rw [h]; decide), if_pos h]

/-- C5 (witness): the three scenarios — "binary:logistic" is a classifier,
"reg:squarederror" is a regressor, "multi:softmax" is indeterminate. -/
theorem C5_witness :
    is_classifier exTree = some true ∧
    is_classifier exTreeRegObjective = some false ∧
    is_classifier exTreeMultiObjective = none :=
  ⟨(C5_is_classifier_tristate exTree).1 (by decide),
   (C5_is_classifier_tristate exTreeRegObjective).2.1 (by decide),
   (C5_is_classifier_tristate exTreeMultiObjective).2.2 (by decide) (by decide)⟩

/-- C6: each of the six unsupported operations signals the
"not yet supported" error for every input; returning a value is impossible
(the success type is `Empty`). -/
theorem C6_unsupported_operations (t : XGBDTree) (node_list : List Nat) :
    criterion t = Except.error ⟨"criterion()", "XGBoost"⟩ ∧
    get_feature_path_importance t node_list =
      Except.error ⟨"get_feature_path_importance()", "XGBoost"⟩ ∧
    get_node_criterion t = Except.error ⟨"get_node_criterion()", "XGBoost"⟩ ∧
    get_max_depth t = Except.error ⟨"get_max_depth()", "XGBoost"⟩ ∧
    get_score t = Except.error ⟨"get_score()", "XGBoost"⟩ ∧
    get_min_samples_leaf t = Except.error ⟨"get_min_samples_leaf()", "XGBoost"⟩ :=
  ⟨rfl, rfl, rfl, rfl, rfl, rfl⟩

/-- C9: for an adapter built by the constructor, every later call of
`get_children_left` / `get_children_right` (which recompute from the cached
immutable table) returns exactly the child arrays computed at construction. -/
theorem C9_children_arrays_cached (b : BoosterData) (ti : Nat) (t : XGBDTree)
    (hmk : XGBDTree.mk? b ti = some t) :
    get_children_left t = some t.children_left ∧
    get_children_right t = some t.children_right := by
  obtain ⟨-, -, hdf, hcl, hcr⟩ := mk?_spec b ti t hmk
  unfold get_children_left get_children_right
  rw [hdf]
  exact ⟨hcl, hcr⟩

/-- C9 (witness): the concrete example adapter. -/
theorem C9_witness :
    get_children_left exTree = some exTree.children_left ∧
    get_children_right exTree = some exTree.children_right :=
  C9_children_arrays_cached exBooster 0 exTree (by decide)

theorem pySplit_compound (xs ys : List Char) (hxs : '-' ∉ xs) (hys : '-' ∉ ys) :
    pySplit (String.mk (xs ++ '-' :: ys)) '-' = [String.mk xs, String.mk ys] := by
  show (splitCharList '-' (xs ++ '-' :: ys)).map (fun cs => String.mk cs) = _
  rw [splitCharList_append_sep _ _ _ hxs, splitCharList_no_sep _ _ hys]
  rfl

theorem childDecode_compound (xs ys : List Char) (v : Int)
    (hxs : '-' ∉ xs) (hys : '-' ∉ ys) (hp : parseIntChars ys = some v) :
    childDecode (CellVal.str (String.mk (xs ++ '-' :: ys))) v := by
  refine ⟨String.mk ys, ?_, hp⟩
  rw [pySplit_compound xs ys hxs hys]
  rfl

/-- C4: for every row of a single tree's table, `_calculate_children`
decodes a compound string child reference to the bare node index (the piece
after the '-' separator, parsed as an integer), passes numeric cells through
unchanged, maps NaN (leaf) cells to the sentinel -1, keeps the array length
equal to the row count, and — when every child reference of the table names
a node index inside [0, nnodes) — every decoded entry is the sentinel -1 or
lies inside [0, nnodes). -/
theorem C4_calculate_children_decode (df : List TreeRow) (col : ChildCol)
    (out : List Int) (h : _calculate_children df col = some out) :
    out.length = df.length ∧
    (∀ (i : Nat) (row : TreeRow), df.get? i = some row →
      ∃ v, out.get? i = some v ∧ childDecode (getCell row col) v) ∧
    (∀ (xs ys : List Char) (v : Int), '-' ∉ xs → '-' ∉ ys →
      parseIntChars ys = some v →
      childDecode (CellVal.str (String.mk (xs ++ '-' :: ys))) v) ∧
    ((∀ row ∈ df, getCell row col = CellVal.nan ∨
        ∃ xs ys v, getCell row col = CellVal.str (String.mk (xs ++ '-' :: ys)) ∧
          '-' ∉ xs ∧ '-' ∉ ys ∧ parseIntChars ys = some v ∧
          0 ≤ v ∧ v < (df.length : Int)) →
      ∀ v ∈ out, v = -1 ∨ (0 ≤ v ∧ v < (df.length : Int))) := by
  have hlen := _calculate_children_length df col out h
  unfold _calculate_children at h
  cases hc : _split_column_value df col with
  | none => rw [hc] at h; simp at h
  | some cells =>
    rw [hc] at h
    simp only [bind, Option.bind] at h
    have hpoint : ∀ (i : Nat) (row : TreeRow), df.get? i = some row →
        ∃ v, out.get? i = some v ∧ childDecode (getCell row col) v := by
      intro i row hrow
      obtain ⟨c, hsv, hci⟩ := optionTraverse_get? _ df cells hc i row hrow
      obtain ⟨v, hgv, hvi⟩ := optionTraverse_get? _ cells out h i c hci
      refine ⟨v, hvi, ?_⟩
      cases hcell : getCell row col with
      | nan =>
        rw [hcell] at hsv
        simp only [split_value, Option.some.injEq] at hsv
        subst hsv
        simp only [_change_no_children_value, cellToInt, Option.some.injEq] at hgv
        exact hgv.symm
      | num n =>
        rw [hcell] at hsv
        simp only [split_value, Option.some.injEq] at hsv
        subst hsv
        simp only [_change_no_children_value, cellToInt, Option.some.injEq] at hgv
        exact hgv.symm
      | str s =>
        rw [hcell] at hsv
        simp only [split_value] at hsv
        cases hw : (pySplit s '-').get? 1 with
        | none => rw [hw] at hsv; exact Option.noConfusion hsv
        | some w =>
          rw [hw] at hsv
          injection hsv with hsv
          subst hsv
          simp only [_change_no_children_value, cellToInt] at hgv
          exact ⟨w, hw, hgv⟩
    refine ⟨hlen, hpoint, childDecode_compound, ?_⟩
    intro hwf v hv
    obtain ⟨i, hi⟩ := List.get?_of_mem hv
    have hidf : i < df.length := by
      have : i < out.length := by
        by_contra hcon
        rw [List.get?_eq_none.mpr (by omega)] at hi
        exact Option.noConfusion hi
      omega
    cases hrow : df.get? i with
    | none => exact absurd (List.get?_eq_none.mp hrow) (by omega)
    | some row =>
      obtain ⟨v', hv'i, hdec⟩ := hpoint i row hrow
      rw [hi] at hv'i
      injection hv'i with hv'i
      subst hv'i
      rcases hwf row (List.get?_mem hrow) with hnan | ⟨xs, ys, v0, hcell, hxs, hys, hp0, hb1, hb2⟩
      · rw [hnan] at hdec
        exact Or.inl hdec
      · rw [hcell] at hdec
        obtain ⟨w, hw, hparse⟩ := hdec
        rw [pySplit_compound xs ys hxs hys] at hw
        injection hw with hw
        subst hw
        have : parseIntChars ys = some v := hparse
        rw [hp0] at this
        injection this with this
        subst this
        exact Or.inr ⟨hb1, hb2⟩

/-- C4 (witness): the example three-row table, whose child column decodes to
[1, -1, -1]; decoding the compound reference "0-5" yields 5. -/
theorem C4_witness :
    (∃ v, ([1, -1, -1] : List Int).get? 0 = some v ∧
      childDecode (getCell exRow0 ChildCol.yes) v) ∧
    childDecode (CellVal.str "0-5") 5 ∧
    (∀ v ∈ ([1, -1, -1] : List Int), v = -1 ∨
      (0 ≤ v ∧ v < (([exRow0, exRowLeaf, exRowLeaf] : List TreeRow).length : Int))) := by
  have H := C4_calculate_children_decode [exRow0, exRowLeaf, exRowLeaf] ChildCol.yes
    [1, -1, -1] (by decide)
  refine ⟨H.2.1 0 exRow0 (by decide), ?_, ?_⟩
  · have h5 := H.2.2.1 ['0'] ['5'] 5 (by decide) (by decide) (by decide)
    have heq : String.mk (['0'] ++ '-' :: ['5']) = "0-5" := by decide
    rw [heq] at h5
    exact h5
  · refine H.2.2.2 ?_
    intro row hrow
    rcases List.mem_cons.mp hrow with rfl | hrow2
    · exact Or.inr ⟨['0'], ['1'], 1, by decide, by decide, by decide, by decide,
        by decide, by decide⟩
    · rcases List.mem_cons.mp hrow2 with rfl | hrow3
      · exact Or.inl rfl
      · rcases List.mem_cons.mp hrow3 with rfl | hrow4
        · exact Or.inl rfl
        · simp at hrow4

theorem wfEx : WellFormed [1, -1, -1] [2, -1, -1] := by
  refine ⟨rfl, ⟨by decide, by decide⟩, ?_, ?_⟩
  · intro k hk1 hk2
    have hk3 : k < 3 := by simpa using hk2
    interval_cases k <;> decide
  · refine ⟨fun k => k.toNat, ?_⟩
    intro p k hp hk h
    have hp3 : p < 3 := by simpa using hp
    interval_cases p <;>
      simp only [List.getD, List.get?, Option.getD_some] at h <;>
      rcases h with rfl | rfl <;> dsimp only <;> omega

/-- C8: for child arrays built at construction from a table whose links form
a well-formed tree, both arrays have length nnodes and every valid node id
is either the root (a child of nobody) or a non-root id occurring as exactly
one child reference in exactly one of the two arrays. -/
theorem C8_tree_shape (b : BoosterData) (ti : Nat) (t : XGBDTree)
    (hmk : XGBDTree.mk? b ti = some t)
    (hwf : WellFormed t.children_left t.children_right) :
    t.children_left.length = nnodes t ∧ t.children_right.length = nnodes t ∧
    ∀ k : Int, 0 ≤ k → k < (nnodes t : Int) →
      (k = 0 ∧ k ∉ t.children_left ∧ k ∉ t.children_right) ∨
      (k ≠ 0 ∧ t.children_left.count k + t.children_right.count k = 1 ∧
        ((k ∈ t.children_left ∧ k ∉ t.children_right) ∨
         (k ∉ t.children_left ∧ k ∈ t.children_right))) := by
  obtain ⟨-, -, hdf, hcl, hcr⟩ := mk?_spec b ti t hmk
  have hlcl : t.children_left.length = nnodes t := by
    have hl := _calculate_children_length _ _ _ hcl
    rw [nnodes, hdf]
    exact hl
  have hlcr : t.children_right.length = nnodes t := by
    have hl := _calculate_children_length _ _ _ hcr
    rw [nnodes, hdf]
    exact hl
  refine ⟨hlcl, hlcr, ?_⟩
  intro k hk0 hklt
  by_cases hk : k = 0
  · refine Or.inl ⟨hk, ?_, ?_⟩
    · subst hk; exact hwf.root_not_child.1
    · subst hk; exact hwf.root_not_child.2
  · have hpos : 0 < k := lt_of_le_of_ne hk0 (Ne.symm hk)
    have hcnt := hwf.unique_parent k hpos (by rw [hlcl]; exact hklt)
    refine Or.inr ⟨hk, hcnt, ?_⟩
    have hsplit : (t.children_left.count k = 1 ∧ t.children_right.count k = 0) ∨
        (t.children_left.count k = 0 ∧ t.children_right.count k = 1) := by omega
    rcases hsplit with ⟨h1, h2⟩ | ⟨h1, h2⟩
    · exact Or.inl ⟨List.count_pos_iff.mp (by omega), List.count_eq_zero.mp h2⟩
    · exact Or.inr ⟨List.count_eq_zero.mp h1, List.count_pos_iff.mp (by omega)⟩

/-- C8 (witness): the example three-node tree. -/
theorem C8_witness :
    exTree.children_left.length = nnodes exTree ∧
    exTree.children_right.length = nnodes exTree ∧
    ∀ k : Int, 0 ≤ k → k < (nnodes exTree : Int) →
      (k = 0 ∧ k ∉ exTree.children_left ∧ k ∉ exTree.children_right) ∨
      (k ≠ 0 ∧ exTree.children_left.count k + exTree.children_right.count k = 1 ∧
        ((k ∈ exTree.children_left ∧ k ∉ exTree.children_right) ∨
         (k ∉ exTree.children_left ∧ k ∈ exTree.children_right))) :=
  C8_tree_shape exBooster 0 exTree (by decide) wfEx

/-- C10: when the child arrays form a well-formed tree rooted at node 0, the
recursive upward walk terminates from every valid starting leaf id (some
fuel suffices), and started at the root it returns the one-element path [0]
immediately. -/
theorem C10_leaf_path_terminates (cl cr : List Int) (hwf : WellFormed cl cr) :
    (∀ leaf : Int, 0 ≤ leaf → leaf < (cl.length : Int) →
      ∃ (fuel : Nat) (path : List Int),
        _get_leaf_prediction_path cl cr fuel leaf = some path) ∧
    (∀ fuel : Nat, _get_leaf_prediction_path cl cr (fuel + 1) 0 = some [0]) := by
  constructor
  · intro leaf h0 hlt
    obtain ⟨rank, hrank⟩ := hwf.acyclic
    obtain ⟨seg, hseg, -⟩ := walkSeg_total cl cr hwf.len_eq hwf.unique_parent rank hrank
      (rank leaf + 1) leaf h0 hlt (by omega)
    refine ⟨rank leaf + 1, leaf :: seg, ?_⟩
    unfold _get_leaf_prediction_path
    rw [hseg]
    rfl
  · intro fuel
    unfold _get_leaf_prediction_path
    rw [walkSeg_succ, if_pos rfl]
    rfl

/-- C10 (witness): the example arrays; from leaf 1 the walk terminates, and
from the root it yields [0]. -/
theorem C10_witness :
    (∃ (fuel : Nat) (path : List Int),
      _get_leaf_prediction_path [1, -1, -1] [2, -1, -1] fuel 1 = some path) ∧
    _get_leaf_prediction_path [1, -1, -1] [2, -1, -1] 1 0 = some [0] :=
  ⟨(C10_leaf_path_terminates [1, -1, -1] [2, -1, -1] wfEx).1 1 (by decide) (by decide),
   (C10_leaf_path_terminates [1, -1, -1] [2, -1, -1] wfEx).2 0⟩

theorem foldl_insertPath_enum_ne_nil (p0 : List Int) (ps : List (List Int))
    (hp0 : p0 ≠ []) :
    ((p0 :: ps).enum).foldl (fun d ip => insertPath d ip.1 ip.2) [] ≠ [] := by
  show (List.enumFrom 1 ps).foldl (fun d ip => insertPath d ip.1 ip.2)
    (insertPath [] 0 p0) ≠ []
  apply foldl_insertPath_ne_nil
  cases p0 with
  | nil => exact absurd rfl hp0
  | cons n rest => exact insertPath_ne_nil_of_path_ne_nil 0 n rest []

/-- C7 (counterexample): a booster with a single tree (index 0, one row) and
one training sample, asked for tree index 1: the filtered table is empty and
nnodes() is 0, but `get_node_samples` raises (the leaf matrix has no column
1, an `IndexError`) instead of returning an empty mapping. -/
theorem C7_counterexample :
    XGBDTree.mk? exBoosterOneTree 1 = some exTreeAbsentIndex ∧
    _get_tree_dataframe exBoosterOneTree 1 = [] ∧
    nnodes exTreeAbsentIndex = 0 ∧
    predictionLeaves exTreeAbsentIndex = none ∧
    get_node_samples exTreeAbsentIndex 1 = none := by decide

/-- C7 (amended): when the requested tree index has zero matching rows,
nnodes() returns 0 with no exception; `get_node_samples`, which reads the
booster's leaf matrix rather than the node table, raises when the matrix
has no column for the tree index, and otherwise returns a mapping that is
empty exactly when the training set is empty. -/
theorem C7_absent_tree_index (b : BoosterData) (ti : Nat) (t : XGBDTree) (fuel : Nat)
    (hmk : XGBDTree.mk? b ti = some t)
    (hzero : _get_tree_dataframe b ti = []) :
    nnodes t = 0 ∧
    (predictionLeaves t = none → get_node_samples t fuel = none) ∧
    (∀ d, get_node_samples t fuel = some d → (d = [] ↔ t.booster.leaf_matrix = [])) := by
  obtain ⟨-, -, hdf, -, -⟩ := mk?_spec b ti t hmk
  refine ⟨by rw [nnodes, hdf, hzero]; rfl, ?_, ?_⟩
  · intro hnone
    unfold get_node_samples
    rw [hnone]
    rfl
  · intro d hd
    unfold get_node_samples at hd
    cases hlv : predictionLeaves t with
    | none => rw [hlv] at hd; exact absurd hd (by simp [bind, Option.bind])
    | some leaves =>
      rw [hlv] at hd
      simp only [bind, Option.bind] at hd
      cases hpaths : optionTraverse
          (fun leaf => _get_leaf_prediction_path t.children_left t.children_right fuel leaf)
          leaves with
      | none => rw [hpaths] at hd; exact absurd hd (by simp)
      | some paths =>
        rw [hpaths] at hd
        simp only [Option.pure_def, Option.some.injEq] at hd
        have hlenl : leaves.length = t.booster.leaf_matrix.length :=
          optionTraverse_length _ _ _ hlv
        have hlenp : paths.length = leaves.length :=
          optionTraverse_length _ _ _ hpaths
        constructor
        · intro hdempty
          by_contra hm
          have hmlen : t.booster.leaf_matrix.length ≠ 0 :=
            fun h => hm (List.eq_nil_of_length_eq_zero h)
          cases hps : paths with
          | nil =>
            rw [hps] at hlenp
            simp at hlenp
            omega
          | cons p0 ps =>
            have hl0 : ∃ l0, leaves.get? 0 = some l0 := by
              cases leaves with
              | nil => exact absurd (by simpa using hlenl.symm) hmlen
              | cons a as => exact ⟨a, rfl⟩
            obtain ⟨l0, hl0⟩ := hl0
            obtain ⟨p0', hf, hp0'⟩ := optionTraverse_get? _ leaves paths hpaths 0 l0 hl0
            rw [hps] at hp0'
            simp only [List.get?] at hp0'
            injection hp0' with hp0'
            subst hp0'
            unfold _get_leaf_prediction_path at hf
            cases hws : walkSeg t.children_left t.children_right fuel l0 with
            | none => rw [hws] at hf; exact Option.noConfusion hf
            | some seg =>
              rw [hws] at hf
              injection hf with hf
              have hne : p0 ≠ [] := by
                rw [← hf]
                simp
              have hdne := foldl_insertPath_enum_ne_nil p0 ps hne
              rw [hps] at hd
              exact hdne (hd ▸ hdempty)
        · intro hmat
          rw [hmat] at hlenl
          simp at hlenl
          have hpnil : paths = [] := by
            rw [hlenl] at hlenp
            exact List.eq_nil_of_length_eq_zero hlenp
          rw [hpnil] at hd
          simp [List.enum] at hd
          exact hd

/-- C7 (witness): the concrete single-tree booster at the absent index 1. -/
theorem C7_witness :
    nnodes exTreeAbsentIndex = 0 ∧
    (predictionLeaves exTreeAbsentIndex = none →
      get_node_samples exTreeAbsentIndex 1 = none) ∧
    (∀ d, get_node_samples exTreeAbsentIndex 1 = some d →
      (d = [] ↔ exTreeAbsentIndex.booster.leaf_matrix = [])) :=
  C7_absent_tree_index exBoosterOneTree 1 exTreeAbsentIndex 1 (by decide) (by decide)

/-- C1: when the child arrays form a well-formed tree rooted at node 0 and
the predicted leaf ids are valid node ids, `get_node_samples` (with enough
fuel for the source recursion) succeeds, the mapping of the root node 0 is
exactly the full list of training-sample indices (size N), and every
sample's assigned leaf id carries that sample in its own entry. -/
theorem C1_node_samples_exhaustive (t : XGBDTree) (leaves : List Int)
    (hwf : WellFormed t.children_left t.children_right)
    (hleaves : predictionLeaves t = some leaves)
    (hvalid : ∀ l ∈ leaves, 0 ≤ l ∧ l < (t.children_left.length : Int)) :
    ∃ (fuel : Nat) (d : List (Int × List Nat)),
      get_node_samples t fuel = some d ∧
      dictGet 0 d = List.range t.booster.leaf_matrix.length ∧
      (∀ (i : Nat) (leaf : Int), leaves.get? i = some leaf → i ∈ dictGet leaf d) := by
  obtain ⟨rank, hrank⟩ := hwf.acyclic
  set F := (leaves.map (fun l => rank l)).foldr max 0 + 1 with hF
  have hrankF : ∀ l ∈ leaves, rank l < F := by
    intro l hl
    have hle : rank l ≤ (leaves.map (fun l => rank l)).foldr max 0 :=
      le_foldr_max _ _ (List.mem_map_of_mem _ hl)
    omega
  have hpath : ∀ l ∈ leaves, ∃ seg,
      walkSeg t.children_left t.children_right F l = some seg ∧
      seg.count 0 = if l = 0 then 0 else 1 := by
    intro l hl
    obtain ⟨h0, hlt⟩ := hvalid l hl
    exact walkSeg_total _ _ hwf.len_eq hwf.unique_parent rank hrank F l h0 hlt
      (hrankF l hl)
  have htot : ∀ l ∈ leaves, ∃ p,
      _get_leaf_prediction_path t.children_left t.children_right F l = some p := by
    intro l hl
    obtain ⟨seg, hseg, -⟩ := hpath l hl
    refine ⟨l :: seg, ?_⟩
    unfold _get_leaf_prediction_path
    rw [hseg]
    rfl
  obtain ⟨paths, hpaths⟩ := optionTraverse_total _ leaves htot
  refine ⟨F, paths.enum.foldl (fun d ip => insertPath d ip.1 ip.2) [], ?_, ?_, ?_⟩
  · unfold get_node_samples
    rw [hleaves]
    simp only [bind, Option.bind]
    rw [hpaths]
    rfl
  · have hcount : ∀ p ∈ paths, p.count 0 = 1 := by
      intro p hp
      obtain ⟨l, hl, hf⟩ := optionTraverse_mem _ leaves paths hpaths p hp
      obtain ⟨seg, hseg, hcnt⟩ := hpath l hl
      unfold _get_leaf_prediction_path at hf
      rw [hseg] at hf
      simp only [Option.map_some', Option.some.injEq] at hf
      subst hf
      by_cases hl0 : l = 0
      · subst hl0
        rw [List.count_cons_self]
        rw [if_pos rfl] at hcnt
        omega
      · rw [List.count_cons_of_ne (fun h => hl0 h.symm)]
        rw [if_neg hl0] at hcnt
        exact hcnt
    have hlen1 : paths.length = leaves.length := optionTraverse_length _ _ _ hpaths
    have hlen2 : leaves.length = t.booster.leaf_matrix.length :=
      optionTraverse_length _ _ _ hleaves
    rw [show paths.enum = List.enumFrom 0 paths from rfl]
    rw [dictGet_foldl_insertPath 0 paths 0 []]
    rw [routedAux_all_once 0 paths hcount 0, hlen1, hlen2]
    simp [dictGet, List.range_eq_range']
  · intro i leaf hileaf
    obtain ⟨p, hf, hpi⟩ := optionTraverse_get? _ leaves paths hpaths i leaf hileaf
    have hcl : 0 < p.count leaf := by
      unfold _get_leaf_prediction_path at hf
      cases hws : walkSeg t.children_left t.children_right F leaf with
      | none => rw [hws] at hf; exact absurd hf (by simp)
      | some seg =>
        rw [hws] at hf
        simp only [Option.map_some', Option.some.injEq] at hf
        subst hf
        rw [List.count_cons_self]
        omega
    have hmem := mem_routedAux leaf paths i p hpi hcl 0
    rw [show paths.enum = List.enumFrom 0 paths from rfl]
    rw [dictGet_foldl_insertPath leaf paths 0 []]
    simpa [dictGet] using hmem

/-- C1 (witness): the example adapter, two samples landing in leaves 1 and
2; the root collects both samples and each leaf its own sample. -/
theorem C1_witness :
    ∃ (fuel : Nat) (d : List (Int × List Nat)),
      get_node_samples exTree fuel = some d ∧
      dictGet 0 d = List.range exTree.booster.leaf_matrix.length ∧
      (∀ (i : Nat) (leaf : Int), ([1, 2] : List Int).get? i = some leaf →
        i ∈ dictGet leaf d) :=
  C1_node_samples_exhaustive exTree [1, 2] wfEx (by decide) (by decide)
